import Mathlib

/-!
Verification of the Honey Points staged auto-trading engine (userStrategy.ts)
and the per-user deduplication ledger (telegramBot.ts).

The TypeScript sources are shallowly embedded as pure Lean functions:
  - JavaScript numbers are modelled exactly over the rationals;
  - asynchronous, potentially-failing collaborator calls (getPrice, autoBuy,
    autoSell, the sha256 digest) are modelled as oracle function parameters
    returning Option values, with the stage index distinguishing the distinct
    sell call occurrences of one pass;
  - in-place mutation of the user map and token records is modelled by
    explicit state passing; a thrown Error is an Except.error that leaves the
    incoming state untouched;
  - JavaScript truthiness tests on optional numeric and string fields are
    made explicit by the falsiness helpers below;
  - file input and output of the ledger and the advisory file lock are
    abstracted away: the ledger functions map the parsed file content (a list
    of records) and the current wall-clock time to the new file content and
    the returned value.
-/

namespace Bot

/-- Token status values used for bot UI feedback (userStrategy.ts line 15). -/
inductive Status where
  | pending
  | active
  | sold
  | error
deriving DecidableEq, Repr

/-- The HoneyToken record of userStrategy.ts lines 7 to 18.  Fields that are
optional in the TypeScript type are Option valued here. -/
structure HoneyToken where
  address : String
  buyAmount : ℚ
  profitPercents : List ℚ
  soldPercents : List ℚ
  lastEntryPrice : Option ℚ := none
  lastSellPrice : Option ℚ := none
  finished : Bool := false
  status : Option Status := none
  currentStage : Option ℕ := none
  lastTxId : Option String := none
deriving DecidableEq, Repr

/-- The HoneySettings record of userStrategy.ts lines 20 to 23. -/
structure HoneySettings where
  tokens : List HoneyToken
  repeatOnEntry : Bool
deriving DecidableEq, Repr

/-- The slice of a user record that the strategy engine reads and writes:
the wallet secret and the honeySettings object. -/
structure User where
  secret : Option String := none
  honeySettings : Option HoneySettings := none
deriving DecidableEq, Repr

/-- The in-memory users object, keyed by user id. -/
def Users : Type := String → Option User

/-- JavaScript falsiness of an optional numeric field: an absent value and 0
are both falsy. -/
def numFalsy (o : Option ℚ) : Bool :=
  match o with
  | none => true
  | some x => x == 0

/-- JavaScript falsiness of an optional string field: an absent value and the
empty string are both falsy. -/
def strFalsy (o : Option String) : Bool :=
  match o with
  | none => true
  | some s => s == ""

/-- getHoneySettings (userStrategy.ts lines 28 to 38): defaults to an empty
token list with repeatOnEntry true when the user record or its honeySettings
field is absent. -/
def getHoneySettings (userId : String) (users : Users) : HoneySettings :=
  match users userId with
  | none => { tokens := [], repeatOnEntry := true }
  | some u =>
    match u.honeySettings with
    | none => { tokens := [], repeatOnEntry := true }
    | some s => s

/-- setHoneySettings (userStrategy.ts lines 43 to 46): creates the user record
when absent and stores the settings object on it. -/
def setHoneySettings (userId : String) (s : HoneySettings) (users : Users) : Users :=
  fun k =>
    if k = userId then
      some { ((users userId).getD {}) with honeySettings := some s }
    else users k

/-- addHoneyToken (userStrategy.ts lines 51 to 60).  A thrown Error is an
Except.error carrying the message; the token is appended otherwise. -/
def addHoneyToken (userId : String) (token : HoneyToken) (users : Users) :
    Except String Users :=
  let settings := getHoneySettings userId users
  if 10 ≤ settings.tokens.length then
    Except.error "Maximum 10 tokens allowed."
  else if settings.tokens.any (fun t => t.address == token.address) then
    Except.error "Token already exists in strategy."
  else
    Except.ok (setHoneySettings userId
      { settings with tokens := settings.tokens ++ [token] } users)

/-- The users object after a call of addHoneyToken: a thrown Error leaves the
in-memory users object unchanged. -/
def addHoneyTokenRun (userId : String) (token : HoneyToken) (users : Users) : Users :=
  match addHoneyToken userId token users with
  | Except.error _ => users
  | Except.ok us => us

/-- The validation gate of userStrategy.ts line 93: a token with a falsy
address or buyAmount or an empty stage array is ignored with status error. -/
def tokenInvalid (t : HoneyToken) : Bool :=
  t.address == "" || t.buyAmount == 0 || t.profitPercents.isEmpty || t.soldPercents.isEmpty

/-- The loop start index of userStrategy.ts line 123, token.currentStage or 0. -/
def stageOrZero (o : Option ℕ) : ℕ := o.getD 0

/-- The stage target price of userStrategy.ts line 124. -/
def stageTarget (t : HoneyToken) (i : ℕ) : ℚ :=
  t.lastEntryPrice.getD 0 * (1 + t.profitPercents.getD i 0 / 100)

/-- The stage firing guard of userStrategy.ts lines 125 to 128. -/
def stageFires (price : ℚ) (t : HoneyToken) (i : ℕ) : Bool :=
  decide (stageTarget t i ≤ price) &&
    ( numFalsy t.lastSellPrice || decide (t.lastSellPrice.getD 0 < price))

/-- One attempted sell call of a pass: the stage index, the amount passed to
autoSell, and its outcome (the transaction id, or none on failure). -/
structure SellCall where
  stage : ℕ
  amount : ℚ
  txId : Option String
deriving DecidableEq, Repr

/-- One iteration of the profit-stage loop (userStrategy.ts lines 123 to 144):
if the guard holds, autoSell is attempted with amount
buyAmount * soldPercents at i / 100; on success lastSellPrice, currentStage
and lastTxId are updated and the token is finished once currentStage reaches
the stage-array length; on failure status becomes error.  The attempted call
is recorded in the returned trace. -/
def stageStep (price : ℚ) (sellAt : ℕ → Option String) (i : ℕ) (t : HoneyToken) :
    HoneyToken × List SellCall :=
  if stageFires price t i then
    let amt := t.buyAmount * (t.soldPercents.getD i 0 / 100)
    match sellAt i with
    | some tx =>
      let t1 := { t with lastSellPrice := some price, currentStage := some (i + 1),
                         lastTxId := some tx }
      if t.profitPercents.length ≤ i + 1 then
        ({ t1 with finished := true, status := some Status.sold }, [⟨i, amt, some tx⟩])
      else
        (t1, [⟨i, amt, some tx⟩])
    | none => ({ t with status := some Status.error }, [⟨i, amt, none⟩])
  else (t, [])

/-- The index sequence of the stage loop: stageIdx s n = [s, s+1, ..., s+n-1].
The loop of userStrategy.ts line 123 visits stageIdx start (length - start),
since the loop counter is independent of the currentStage writes and
profitPercents is never reassigned inside the loop. -/
def stageIdx : ℕ → ℕ → List ℕ
  | _, 0 => []
  | s, n + 1 => s :: stageIdx (s + 1) n

/-- Runs the stage loop body over the given index sequence, threading the
token state and concatenating the sell-call traces. -/
def runStages (price : ℚ) (sellAt : ℕ → Option String) :
    List ℕ → HoneyToken → HoneyToken × List SellCall
  | [], t => (t, [])
  | i :: rest, t =>
    let r1 := stageStep price sellAt i t
    let r2 := runStages price sellAt rest r1.1
    (r2.1, r1.2 ++ r2.2)

/-- The whole profit-stage loop of userStrategy.ts lines 123 to 144. -/
def stageLoop (price : ℚ) (sellAt : ℕ → Option String) (t : HoneyToken) :
    HoneyToken × List SellCall :=
  runStages price sellAt
    (stageIdx (stageOrZero t.currentStage)
      (t.profitPercents.length - stageOrZero t.currentStage)) t

/-- The repeat-on-entry reset of userStrategy.ts lines 145 to 158: after stage
evaluation, if the soldPercents sum to at least 100 and repeatOnEntry is
enabled and the current price is at most lastEntryPrice (0 when absent), the
token is reset in place. -/
def repeatCheck (repeatOnEntry : Bool) (price : ℚ) (t : HoneyToken) : HoneyToken :=
  if 100 ≤ t.soldPercents.sum ∧ repeatOnEntry = true ∧ price ≤ t.lastEntryPrice.getD 0 then
    { t with finished := false, lastEntryPrice := none, lastSellPrice := none,
             status := some Status.pending, currentStage := some 0, lastTxId := none }
  else t

/-- Evaluation of a single token in one pass of executeHoneyStrategy
(userStrategy.ts lines 91 to 159): validation gate, terminal check, price
fetch, entry step, profit stages, repeat-on-entry.  getPrice and autoBuy
return none on failure; sellAt gives the outcome of the sell call attempted
at a given stage index.  The second component is the trace of attempted sell
calls. -/
def evalToken (repeatOnEntry : Bool) (getPrice : String → Option ℚ)
    (autoBuy : String → ℚ → Option String) (sellAt : String → ℕ → Option String)
    (t : HoneyToken) : HoneyToken × List SellCall :=
  if tokenInvalid t then
    ({ t with status := some Status.error }, [])
  else if t.finished then
    ({ t with status := some Status.sold }, [])
  else
    match getPrice t.address with
    | none => ({ t with status := some Status.error }, [])
    | some price =>
      if numFalsy t.lastEntryPrice then
        match autoBuy t.address t.buyAmount with
        | some tx =>
          ({ t with lastEntryPrice := some price, status := some Status.active,
                    currentStage := some 0, lastTxId := some tx }, [])
        | none => ({ t with status := some Status.error }, [])
      else
        let r := stageLoop price (sellAt t.address) t
        (repeatCheck repeatOnEntry price r.1, r.2)

/-- executeHoneyStrategy (userStrategy.ts lines 81 to 161).  The wallet check
of line 89 throws before any token is touched; otherwise every token of the
settings is evaluated in order and the settings are stored back. -/
def executeHoneyStrategy (userId : String) (users : Users)
    (getPrice : String → Option ℚ) (autoBuy : String → ℚ → Option String)
    (sellAt : String → ℕ → Option String) : Except String Users :=
  match users userId with
  | none => Except.error "Wallet not found"
  | some u =>
    if strFalsy u.secret then Except.error "Wallet not found"
    else
      let settings := getHoneySettings userId users
      let tokens1 := settings.tokens.map
        (fun t => (evalToken settings.repeatOnEntry getPrice autoBuy sellAt t).1)
      Except.ok (setHoneySettings userId { settings with tokens := tokens1 } users)

/-- The users object after a call of executeHoneyStrategy: a thrown Error
leaves the in-memory users object unchanged. -/
def runStrategy (userId : String) (users : Users)
    (getPrice : String → Option ℚ) (autoBuy : String → ℚ → Option String)
    (sellAt : String → ℕ → Option String) : Users :=
  match executeHoneyStrategy userId users getPrice autoBuy sellAt with
  | Except.error _ => users
  | Except.ok us => us

/-- One persisted deduplication record (telegramBot.ts): a digest string and a
millisecond timestamp.  The timestamp is Option valued because the filter of
lines 76 and 112 defaults an absent ts to 0. -/
structure SentRecord where
  hash : String
  ts : Option ℤ := none
deriving DecidableEq, Repr

/-- The record-validity filter of telegramBot.ts lines 76 and 112: the record
must have a truthy hash and be younger than 24 hours. -/
def recordValid (now : ℤ) (r : SentRecord) : Bool :=
  decide (r.hash ≠ "") && decide (now - r.ts.getD 0 < 86400000)

/-- The surviving records of readSentHashes (telegramBot.ts line 76); this
pruned list is also what the function writes back to the file. -/
def readValidRecords (now : ℤ) (arr : List SentRecord) : List SentRecord :=
  arr.filter (recordValid now)

/-- The digests returned by readSentHashes (telegramBot.ts lines 64 to 98):
the hashes of the surviving records. -/
def readSentHashes (now : ℤ) (arr : List SentRecord) : List String :=
  (readValidRecords now arr).map (fun r => r.hash)

/-- appendSentHash (telegramBot.ts lines 101 to 143) as a map from the parsed
file content to the new file content: prune expired records, return the file
unchanged when the digest is already present among the valid records,
otherwise push the new record and apply the two capacity trims. -/
def appendSentHash (now : ℤ) (h : String) (arr0 : List SentRecord) : List SentRecord :=
  let arr1 := arr0.filter (recordValid now)
  if arr1.any (fun r => r.hash == h) then arr0
  else
    let arr2 := arr1 ++ [⟨h, some now⟩]
    let arr3 := if 3000 ≤ arr2.length then arr2.drop 10 else arr2
    if 6000 < arr3.length then arr3.drop (arr3.length - 6000) else arr3

/-- Whitespace test of the JavaScript trim builtin, for the ASCII whitespace
characters. -/
def jsWhitespace (c : Char) : Bool :=
  c = ' ' || c = '\t' || c = '\r' || c = '\n'

/-- Model of the JavaScript String.prototype.trim builtin: removes leading
and trailing whitespace. -/
def jsTrim (s : String) : String :=
  String.mk (((s.data.dropWhile jsWhitespace).reverse.dropWhile jsWhitespace).reverse)

/-- Model of the JavaScript String.prototype.toLowerCase builtin: lower-cases
every character. -/
def jsToLower (s : String) : String :=
  String.mk (s.data.map Char.toLower)

/-- hashTokenAddress (telegramBot.ts lines 59 to 61): the sha256 hex digest of
the trimmed, lower-cased address.  The digest itself is the external crypto
collaborator, passed as a function parameter. -/
def hashTokenAddress (sha256hex : String → String) (addr : String) : String :=
  sha256hex (jsToLower (jsTrim addr))

/-- The sample token of the specification: profitPercents [10, 25],
soldPercents [50, 50], buyAmount 1, entered at price 100, next stage 0. -/
def sampleToken : HoneyToken :=
  { address := "tok", buyAmount := 1, profitPercents := [10, 25],
    soldPercents := [50, 50], lastEntryPrice := some 100, lastSellPrice := none,
    finished := false, status := some Status.active, currentStage := some 0,
    lastTxId := some "tx0" }

/-- The sample token after stage 0 fired at price 110. -/
def sampleAfterStage0 : HoneyToken :=
  { sampleToken with lastSellPrice := some 110, currentStage := some 1,
                     lastTxId := some "s" }

/-- The sample token fully sold: stage 1 fired at price 126. -/
def sampleSold : HoneyToken :=
  { sampleAfterStage0 with lastSellPrice := some 126, currentStage := some 2,
                           finished := true, status := some Status.sold }

/-- The sample token after the repeat-on-entry reset. -/
def sampleReset : HoneyToken :=
  { sampleAfterStage0 with finished := false, lastEntryPrice := none, lastSellPrice := none,
                           status := some Status.pending, currentStage := some 0,
                           lastTxId := none }

/-- A minimal well-formed token with the given address. -/
def mkTok (a : String) : HoneyToken :=
  { address := a, buyAmount := 1, profitPercents := [10], soldPercents := [100] }

/-- Ten distinct tokens, filling a user's capacity. -/
def tenTokens : List HoneyToken :=
  [mkTok "a0", mkTok "a1", mkTok "a2", mkTok "a3", mkTok "a4",
   mkTok "a5", mkTok "a6", mkTok "a7", mkTok "a8", mkTok "a9"]

/-- A users object whose single user already tracks ten tokens. -/
def usersTen : Users :=
  fun k =>
    if k = "u" then
      some { secret := some "w",
             honeySettings := some { tokens := tenTokens, repeatOnEntry := true } }
    else none

/-- Helper: appendSentHash returns the file unchanged when the digest is
already present among the valid records. -/
theorem appendSentHash_of_any (now : ℤ) (h : String) (arr0 : List SentRecord)
    (hdup : (arr0.filter (recordValid now)).any (fun r => r.hash == h) = true) :
    appendSentHash now h arr0 = arr0 := by
  simp [appendSentHash, hdup]

/-- Helper: after an append of a fresh digest, the new record is in the file. -/
theorem appendSentHash_mem_self (now : ℤ) (h : String) (arr0 : List SentRecord)
    (hdup : ¬ (arr0.filter (recordValid now)).any (fun r => r.hash == h) = true) :
    SentRecord.mk h (some now) ∈ appendSentHash now h arr0 := by
  simp only [appendSentHash, if_neg hdup]
  by_cases h3000 : 3000 ≤ (arr0.filter (recordValid now) ++ [SentRecord.mk h (some now)]).length
  · rw [if_pos h3000]
    have h10 : 10 ≤ (arr0.filter (recordValid now)).length := by
      simp only [List.length_append, List.length_singleton] at h3000
      omega
    rw [List.drop_append_of_le_length h10]
    by_cases h6000 : 6000 <
        ((arr0.filter (recordValid now)).drop 10 ++ [SentRecord.mk h (some now)]).length
    · rw [if_pos h6000]
      have hle : ((arr0.filter (recordValid now)).drop 10 ++
          [SentRecord.mk h (some now)]).length - 6000 ≤
          ((arr0.filter (recordValid now)).drop 10).length := by
        simp only [List.length_append, List.length_singleton]
        omega
      rw [List.drop_append_of_le_length hle]
      exact List.mem_append_right _ (List.mem_singleton.mpr rfl)
    · rw [if_neg h6000]
      exact List.mem_append_right _ (List.mem_singleton.mpr rfl)
  · rw [if_neg h3000]
    by_cases h6000 : 6000 <
        (arr0.filter (recordValid now) ++ [SentRecord.mk h (some now)]).length
    · rw [if_pos h6000]
      have hle : (arr0.filter (recordValid now) ++
          [SentRecord.mk h (some now)]).length - 6000 ≤
          (arr0.filter (recordValid now)).length := by
        simp only [List.length_append, List.length_singleton] at h6000 ⊢
        omega
      rw [List.drop_append_of_le_length hle]
      exact List.mem_append_right _ (List.mem_singleton.mpr rfl)
    · rw [if_neg h6000]
      exact List.mem_append_right _ (List.mem_singleton.mpr rfl)

/-- Claim C5: readValid discards exactly the well-formed records whose age
now - ts is at least 86400000 ms and returns the digests of the survivors;
a record with ts = now - 86400001 is absent from the result and a record
with ts = now - 86399999 is present. -/
theorem read_valid_ttl_filter :
    (∀ (now : ℤ) (arr : List SentRecord) (r : SentRecord), r ∈ arr → r.hash ≠ "" →
      (r ∈ readValidRecords now arr ↔ now - r.ts.getD 0 < 86400000))
    ∧ (∀ (now : ℤ) (arr : List SentRecord) (r : SentRecord),
        r ∈ readValidRecords now arr → r.hash ∈ readSentHashes now arr)
    ∧ (∀ now : ℤ,
        readSentHashes now
          [SentRecord.mk "a" (some (now - 86400001)),
           SentRecord.mk "b" (some (now - 86399999))] = ["b"]) := by
  refine ⟨?_, ?_, ?_⟩
  · intro now arr r hmem hh
    simp [readValidRecords, List.mem_filter, recordValid, hmem, hh]
  · intro now arr r hmem
    exact List.mem_map_of_mem _ hmem
  · intro now
    have h1 : recordValid now (SentRecord.mk "a" (some (now - 86400001))) = false := by
      simp [recordValid]
    have h2 : recordValid now (SentRecord.mk "b" (some (now - 86399999))) = true := by
      simp [recordValid]
    simp [readSentHashes, readValidRecords, List.filter, h1, h2]

/-- Claim C5 witness: a fresh record is kept. -/
theorem read_valid_ttl_filter_check :
    SentRecord.mk "a" (some 0) ∈ readValidRecords 0 [SentRecord.mk "a" (some 0)] :=
  (read_valid_ttl_filter.1 0 [SentRecord.mk "a" (some 0)] (SentRecord.mk "a" (some 0))
    (by decide) (by decide)).mpr (by decide)

/-- Claim C6: after an append of a fresh digest, if the record count reaches
3000 the 10 oldest records are dropped (in particular on the append that
brings the count to exactly 3000), the file is the pruned records plus the
new record while the count stays below 3000, and if the count after the
first trim still exceeds 6000 the file is truncated to the most recent 6000
records. -/
theorem append_capacity_policy (now : ℤ) (h : String) (arr0 : List SentRecord)
    (hdup : ∀ r ∈ arr0.filter (recordValid now), r.hash ≠ h) :
    ((arr0.filter (recordValid now) ++ [SentRecord.mk h (some now)]).length < 3000 →
      appendSentHash now h arr0 =
        arr0.filter (recordValid now) ++ [SentRecord.mk h (some now)])
    ∧ ((arr0.filter (recordValid now) ++ [SentRecord.mk h (some now)]).length = 3000 →
      appendSentHash now h arr0 =
        (arr0.filter (recordValid now) ++ [SentRecord.mk h (some now)]).drop 10)
    ∧ (3000 ≤ (arr0.filter (recordValid now) ++ [SentRecord.mk h (some now)]).length →
      (arr0.filter (recordValid now) ++ [SentRecord.mk h (some now)]).length - 10 ≤ 6000 →
      appendSentHash now h arr0 =
        (arr0.filter (recordValid now) ++ [SentRecord.mk h (some now)]).drop 10)
    ∧ (3000 ≤ (arr0.filter (recordValid now) ++ [SentRecord.mk h (some now)]).length →
      6000 < (arr0.filter (recordValid now) ++ [SentRecord.mk h (some now)]).length - 10 →
      appendSentHash now h arr0 =
        (arr0.filter (recordValid now) ++ [SentRecord.mk h (some now)]).drop
          ((arr0.filter (recordValid now) ++ [SentRecord.mk h (some now)]).length - 6000)) := by
  have hany : ¬ (arr0.filter (recordValid now)).any (fun r => r.hash == h) = true := by
    simp only [List.any_eq_true, beq_iff_eq, not_exists, not_and]
    exact hdup
  refine ⟨?_, ?_, ?_, ?_⟩
  · intro hlen
    simp only [appendSentHash, if_neg hany]
    have hc1 : ¬ 3000 ≤
        (arr0.filter (recordValid now) ++ [SentRecord.mk h (some now)]).length := by omega
    rw [if_neg hc1]
    have hc2 : ¬ 6000 <
        (arr0.filter (recordValid now) ++ [SentRecord.mk h (some now)]).length := by omega
    rw [if_neg hc2]
  · intro hlen
    simp only [appendSentHash, if_neg hany]
    have hc1 : 3000 ≤
        (arr0.filter (recordValid now) ++ [SentRecord.mk h (some now)]).length := by omega
    rw [if_pos hc1]
    have hc2 : ¬ 6000 <
        ((arr0.filter (recordValid now) ++ [SentRecord.mk h (some now)]).drop 10).length := by
      simp only [List.length_drop]
      omega
    rw [if_neg hc2]
  · intro hlen hlen2
    simp only [appendSentHash, if_neg hany]
    rw [if_pos hlen]
    have hc2 : ¬ 6000 <
        ((arr0.filter (recordValid now) ++ [SentRecord.mk h (some now)]).drop 10).length := by
      simp only [List.length_drop]
      omega
    rw [if_neg hc2]
  · intro hlen hlen2
    simp only [appendSentHash, if_neg hany]
    rw [if_pos hlen]
    have hc2 : 6000 <
        ((arr0.filter (recordValid now) ++ [SentRecord.mk h (some now)]).drop 10).length := by
      simp only [List.length_drop]
      omega
    rw [if_pos hc2]
    rw [List.drop_drop]
    have harg :
        10 + (((arr0.filter (recordValid now) ++ [SentRecord.mk h (some now)]).drop 10).length -
          6000) =
        (arr0.filter (recordValid now) ++ [SentRecord.mk h (some now)]).length - 6000 := by
      simp only [List.length_drop]
      omega
    rw [harg]

/-- Claim C6 witness: an append that brings the valid record count to exactly
3000 drops the 10 oldest records on that append. -/
theorem append_capacity_policy_check :
    appendSentHash 0 "b" (List.replicate 2999 (SentRecord.mk "a" (some 0))) =
      ((List.replicate 2999 (SentRecord.mk "a" (some 0))).filter (recordValid 0) ++
        [SentRecord.mk "b" (some 0)]).drop 10 := by
  have hdup : ∀ r ∈ (List.replicate 2999 (SentRecord.mk "a" (some 0))).filter (recordValid 0),
      r.hash ≠ "b" := by
    intro r hr
    rw [List.eq_of_mem_replicate (List.mem_of_mem_filter hr)]
    decide
  have hfilter : (List.replicate 2999 (SentRecord.mk "a" (some 0))).filter (recordValid 0) =
      List.replicate 2999 (SentRecord.mk "a" (some 0)) := by
    apply List.filter_eq_self.mpr
    intro r hr
    rw [List.eq_of_mem_replicate hr]
    decide
  refine (append_capacity_policy 0 "b" (List.replicate 2999 (SentRecord.mk "a" (some 0)))
    hdup).2.1 ?_
  rw [hfilter]
  simp only [List.length_append, List.length_replicate, List.length_singleton]

/-- Claim C7: append is idempotent on the digest set: when the digest is
already present among the valid records the file is returned unchanged, and
a second append of the digest just appended changes nothing. -/
theorem append_idempotent_on_present_digest :
    (∀ (now : ℤ) (h : String) (arr0 : List SentRecord),
      (∃ r ∈ arr0.filter (recordValid now), r.hash = h) →
      appendSentHash now h arr0 = arr0)
    ∧ (∀ (now : ℤ) (h : String) (arr0 : List SentRecord), h ≠ "" →
      appendSentHash now h (appendSentHash now h arr0) = appendSentHash now h arr0) := by
  have hbase : ∀ (now : ℤ) (h : String) (arr0 : List SentRecord),
      (∃ r ∈ arr0.filter (recordValid now), r.hash = h) →
      appendSentHash now h arr0 = arr0 := by
    intro now h arr0 hex
    apply appendSentHash_of_any
    rw [List.any_eq_true]
    obtain ⟨r, hr, hh⟩ := hex
    exact ⟨r, hr, by simp [hh]⟩
  refine ⟨hbase, ?_⟩
  intro now h arr0 hh
  by_cases hdup : (arr0.filter (recordValid now)).any (fun r => r.hash == h) = true
  · rw [appendSentHash_of_any now h arr0 hdup]
    exact appendSentHash_of_any now h arr0 hdup
  · apply hbase
    refine ⟨SentRecord.mk h (some now),
      List.mem_filter.mpr ⟨appendSentHash_mem_self now h arr0 hdup, ?_⟩, rfl⟩
    simp [recordValid, hh]

/-- Claim C7 witness: re-appending a present, unexpired digest changes
nothing. -/
theorem append_idempotent_on_present_digest_check :
    appendSentHash 5 "a" [SentRecord.mk "a" (some 5)] = [SentRecord.mk "a" (some 5)] :=
  append_idempotent_on_present_digest.1 5 "a" [SentRecord.mk "a" (some 5)]
    ⟨SentRecord.mk "a" (some 5), by decide, rfl⟩

/-- Claim C8: hashTokenAddress is a pure function of the trimmed,
lower-cased address: any two strings that agree after trimming surrounding
whitespace and lower-casing get the same digest, for every digest function. -/
theorem hash_normalizes_case_and_whitespace :
    (∀ (sha256hex : String → String) (s1 s2 : String),
      jsToLower (jsTrim s1) = jsToLower (jsTrim s2) →
      hashTokenAddress sha256hex s1 = hashTokenAddress sha256hex s2)
    ∧ (∀ sha256hex : String → String,
      hashTokenAddress sha256hex "  ABC  " = hashTokenAddress sha256hex "abc") := by
  constructor
  · intro d s1 s2 hnorm
    simp only [hashTokenAddress, hnorm]
  · intro d
    simp only [hashTokenAddress]
    have hnorm : jsToLower (jsTrim "  ABC  ") = jsToLower (jsTrim "abc") := by decide
    rw [hnorm]

/-- Claim C8 witness: a padded upper-case address and its bare lower-case
form hash alike. -/
theorem hash_normalizes_case_and_whitespace_check :
    hashTokenAddress (fun s => s) " A " = hashTokenAddress (fun s => s) "a" :=
  hash_normalizes_case_and_whitespace.1 (fun s => s) " A " "a" (by decide)

/-- Claim C4: executeHoneyStrategy rejects with the wallet-not-found error
exactly when the user record is absent or its wallet secret is falsy; the
rejection is decided before any token is evaluated (the outcome does not
depend on the price, buy or sell collaborators) and leaves the users object
unchanged. -/
theorem wallet_missing_rejects_whole_pass (userId : String) (users : Users)
    (gp : String → Option ℚ) (ab : String → ℚ → Option String)
    (sa : String → ℕ → Option String) :
    ((∃ e, executeHoneyStrategy userId users gp ab sa = Except.error e) ↔
      (users userId = none ∨ ∃ u, users userId = some u ∧ strFalsy u.secret = true))
    ∧ (∀ e, executeHoneyStrategy userId users gp ab sa = Except.error e →
        e = "Wallet not found")
    ∧ ((users userId = none ∨ ∃ u, users userId = some u ∧ strFalsy u.secret = true) →
      (∀ (gp2 : String → Option ℚ) (ab2 : String → ℚ → Option String)
          (sa2 : String → ℕ → Option String),
        executeHoneyStrategy userId users gp ab sa =
          executeHoneyStrategy userId users gp2 ab2 sa2)
      ∧ runStrategy userId users gp ab sa = users) := by
  cases husers : users userId with
  | none =>
    refine ⟨?_, ?_, ?_⟩
    · simp [executeHoneyStrategy, husers]
    · intro e he
      simp only [executeHoneyStrategy, husers] at he
      exact (Except.error.inj he).symm
    · intro _
      constructor
      · intro gp2 ab2 sa2
        simp [executeHoneyStrategy, husers]
      · simp [runStrategy, executeHoneyStrategy, husers]
  | some u =>
    by_cases hsec : strFalsy u.secret = true
    · refine ⟨?_, ?_, ?_⟩
      · simp [executeHoneyStrategy, husers, hsec]
      · intro e he
        simp only [executeHoneyStrategy, husers, hsec, if_true] at he
        exact (Except.error.inj he).symm
      · intro _
        constructor
        · intro gp2 ab2 sa2
          simp [executeHoneyStrategy, husers, hsec]
        · simp [runStrategy, executeHoneyStrategy, husers, hsec]
    · have hfalse : strFalsy u.secret = false := by
        revert hsec
        cases strFalsy u.secret <;> simp
      refine ⟨?_, ?_, ?_⟩
      · simp [executeHoneyStrategy, husers, hfalse]
      · intro e he
        simp [executeHoneyStrategy, husers, hfalse] at he
      · intro hcond
        simp [hfalse] at hcond

/-- Claim C4 witness: an absent user record rejects with the wallet error. -/
theorem wallet_missing_rejects_whole_pass_check :
    executeHoneyStrategy "u" (fun _ => none) (fun _ => none) (fun _ _ => none)
      (fun _ _ => none) = Except.error "Wallet not found" := by
  obtain ⟨e, he⟩ :=
    (wallet_missing_rejects_whole_pass "u" (fun _ => none) (fun _ => none) (fun _ _ => none)
      (fun _ _ => none)).1.mpr (Or.inl rfl)
  have := (wallet_missing_rejects_whole_pass "u" (fun _ => none) (fun _ => none)
    (fun _ _ => none) (fun _ _ => none)).2.1 e he
  rw [this] at he
  exact he

/-- Claim C9 counterexample: a user who already tracks ten tokens, one of
which has the address being added.  The claim says a duplicate address fails
with the duplicate error whenever it is present, but the code checks
capacity first and reports the capacity error here. -/
theorem duplicate_at_capacity_reports_capacity :
    addHoneyToken "u" (mkTok "a0") usersTen = Except.error "Maximum 10 tokens allowed."
    ∧ (∃ t ∈ (getHoneySettings "u" usersTen).tokens, t.address = (mkTok "a0").address)
    ∧ addHoneyToken "u" (mkTok "a0") usersTen ≠
        Except.error "Token already exists in strategy." := by
  refine ⟨rfl, ⟨mkTok "a0", by simp [getHoneySettings, usersTen, tenTokens], rfl⟩, ?_⟩
  intro hcon
  have : "Maximum 10 tokens allowed." = "Token already exists in strategy." :=
    Except.error.inj ((rfl :
      addHoneyToken "u" (mkTok "a0") usersTen =
        Except.error "Maximum 10 tokens allowed.").symm.trans hcon)
  exact absurd this (by decide)

/-- Claim C9 amended: addHoneyToken checks capacity first: it fails with the
capacity error whenever the user already has 10 or more tokens (even when
the address is also a duplicate); below capacity it fails with the duplicate
error whenever the address already exists; in either failure case the users
object is unchanged; otherwise the token is appended to the stored set. -/
theorem add_token_capacity_then_duplicate (userId : String) (token : HoneyToken)
    (users : Users) :
    (10 ≤ (getHoneySettings userId users).tokens.length →
      addHoneyToken userId token users = Except.error "Maximum 10 tokens allowed."
      ∧ addHoneyTokenRun userId token users = users)
    ∧ ((getHoneySettings userId users).tokens.length < 10 →
      (∃ t ∈ (getHoneySettings userId users).tokens, t.address = token.address) →
      addHoneyToken userId token users = Except.error "Token already exists in strategy."
      ∧ addHoneyTokenRun userId token users = users)
    ∧ ((getHoneySettings userId users).tokens.length < 10 →
      (∀ t ∈ (getHoneySettings userId users).tokens, t.address ≠ token.address) →
      addHoneyToken userId token users = Except.ok (setHoneySettings userId
        { tokens := (getHoneySettings userId users).tokens ++ [token],
          repeatOnEntry := (getHoneySettings userId users).repeatOnEntry } users)) := by
  refine ⟨?_, ?_, ?_⟩
  · intro hlen
    have he : addHoneyToken userId token users = Except.error "Maximum 10 tokens allowed." := by
      simp only [addHoneyToken, if_pos hlen]
    exact ⟨he, by simp only [addHoneyTokenRun, he]⟩
  · intro hlen hex
    have hany : (getHoneySettings userId users).tokens.any
        (fun t => t.address == token.address) = true := by
      rw [List.any_eq_true]
      obtain ⟨t, ht, hadr⟩ := hex
      exact ⟨t, ht, by simp [hadr]⟩
    have he : addHoneyToken userId token users =
        Except.error "Token already exists in strategy." := by
      simp only [addHoneyToken, if_neg (by omega : ¬ 10 ≤
        (getHoneySettings userId users).tokens.length), if_pos hany]
    exact ⟨he, by simp only [addHoneyTokenRun, he]⟩
  · intro hlen hnone
    have hany : (getHoneySettings userId users).tokens.any
        (fun t => t.address == token.address) = false := by
      simp only [List.any_eq_false, beq_iff_eq]
      exact hnone
    simp only [addHoneyToken, if_neg (by omega : ¬ 10 ≤
      (getHoneySettings userId users).tokens.length), hany]
    simp

/-- Claim C9 amended witness: at capacity the capacity error fires and the
users object is untouched; below capacity a duplicate fails with the
duplicate error. -/
theorem add_token_capacity_then_duplicate_check :
    addHoneyToken "u" (mkTok "zz") usersTen = Except.error "Maximum 10 tokens allowed."
    ∧ addHoneyToken "u" (mkTok "b0") (setHoneySettings "u"
        { tokens := [mkTok "b0"], repeatOnEntry := true } (fun _ => none)) =
      Except.error "Token already exists in strategy." := by
  constructor
  · exact ((add_token_capacity_then_duplicate "u" (mkTok "zz") usersTen).1 (by decide)).1
  · exact ((add_token_capacity_then_duplicate "u" (mkTok "b0") (setHoneySettings "u"
      { tokens := [mkTok "b0"], repeatOnEntry := true } (fun _ => none))).2.1 (by decide)
      ⟨mkTok "b0", by simp [getHoneySettings, setHoneySettings], rfl⟩).1

/-- Claim C10: a token whose recorded entry price equals 0 is treated as
having no entry price, because the entry-present test is a JavaScript
falsiness check: the pass runs the entry step (the outcome of the buy call,
which on success overwrites the entry price with the current price and
resets currentStage to 0) instead of evaluating profit stages, so no sell
call is attempted and the sell collaborator is never consulted. -/
theorem zero_entry_price_reruns_entry_step (repeatOnEntry : Bool)
    (gp : String → Option ℚ) (ab : String → ℚ → Option String)
    (sa : String → ℕ → Option String) (t : HoneyToken) (price : ℚ)
    (hinv : tokenInvalid t = false) (hfin : t.finished = false)
    (hentry : t.lastEntryPrice = some 0) (hgp : gp t.address = some price) :
    evalToken repeatOnEntry gp ab sa t =
      (match ab t.address t.buyAmount with
       | some tx => { t with lastEntryPrice := some price, status := some Status.active,
                             currentStage := some 0, lastTxId := some tx }
       | none => { t with status := some Status.error }, []) := by
  have hfalsy : numFalsy t.lastEntryPrice = true := by
    rw [hentry]
    simp [numFalsy]
  cases hab : ab t.address t.buyAmount <;>
    simp [evalToken, hinv, hfin, hgp, hfalsy, hab]

/-- Claim C10 witness: a zero entry price triggers a fresh buy whose success
overwrites the entry price with the current price. -/
theorem zero_entry_price_reruns_entry_step_check :
    evalToken true (fun _ => some 7) (fun _ _ => some "tx") (fun _ _ => some "s")
      { mkTok "z" with lastEntryPrice := some 0 } =
      ({ mkTok "z" with lastEntryPrice := some 7, status := some Status.active,
                        currentStage := some 0, lastTxId := some "tx" }, []) := by
  have h := zero_entry_price_reruns_entry_step true (fun _ => some 7) (fun _ _ => some "tx")
    (fun _ _ => some "s") { mkTok "z" with lastEntryPrice := some 0 } 7
    (by norm_num [tokenInvalid, mkTok]; decide) rfl rfl rfl
  simpa using h

/-- Claim C1: during stage evaluation a stage attempts its sell exactly when
the firing guard holds, the guard is equivalent to currentPrice being at
least entryPrice times (1 + profitPercents at i / 100) while lastSellPrice
is unset or below currentPrice (for the reachable states where lastSellPrice
is never a stored 0), a successful sell sets lastSellPrice to currentPrice,
currentStage to i + 1 and lastTxId, finishing the token with status sold
exactly when currentStage reaches the stage-array length; and the sample
token entered at 100 with profitPercents [10, 25] and soldPercents [50, 50]
fires no stage at 109, fires stage 0 at 110 selling 0.5, does not fire
stage 1 at 110 again, and fires stage 1 at 126 selling 0.5 and finishing. -/
theorem stage_firing_condition_and_trace :
    (∀ (price : ℚ) (t : HoneyToken) (i : ℕ), t.lastSellPrice ≠ some 0 →
      (stageFires price t i = true ↔
        (t.lastEntryPrice.getD 0 * (1 + t.profitPercents.getD i 0 / 100) ≤ price ∧
          (t.lastSellPrice = none ∨ t.lastSellPrice.getD 0 < price))))
    ∧ (∀ (price : ℚ) (sellAt : ℕ → Option String) (t : HoneyToken) (i : ℕ),
      (stageStep price sellAt i t).2 ≠ [] ↔ stageFires price t i = true)
    ∧ (∀ (price : ℚ) (sellAt : ℕ → Option String) (t : HoneyToken) (i : ℕ) (tx : String),
      stageFires price t i = true → sellAt i = some tx →
      (stageStep price sellAt i t).1.lastSellPrice = some price ∧
      (stageStep price sellAt i t).1.currentStage = some (i + 1) ∧
      (stageStep price sellAt i t).1.lastTxId = some tx ∧
      (t.profitPercents.length ≤ i + 1 →
        (stageStep price sellAt i t).1.finished = true ∧
        (stageStep price sellAt i t).1.status = some Status.sold) ∧
      (i + 1 < t.profitPercents.length →
        (stageStep price sellAt i t).1.finished = t.finished ∧
        (stageStep price sellAt i t).1.status = t.status))
    ∧ evalToken true (fun _ => some 109) (fun _ _ => some "b") (fun _ _ => some "s")
        sampleToken = (sampleToken, [])
    ∧ evalToken true (fun _ => some 110) (fun _ _ => some "b") (fun _ _ => some "s")
        sampleToken = (sampleAfterStage0, [⟨0, 1/2, some "s"⟩])
    ∧ evalToken true (fun _ => some 110) (fun _ _ => some "b") (fun _ _ => some "s")
        sampleAfterStage0 = (sampleAfterStage0, [])
    ∧ evalToken true (fun _ => some 126) (fun _ _ => some "b") (fun _ _ => some "s")
        sampleAfterStage0 = (sampleSold, [⟨1, 1/2, some "s"⟩]) := by
  refine ⟨?_, ?_, ?_, ?_, ?_, ?_, ?_⟩
  · intro price t i hs
    cases hls : t.lastSellPrice with
    | none => simp [stageFires, stageTarget, numFalsy, hls]
    | some p =>
      have hp : ¬ p = 0 := fun hcon => hs (by rw [hls, hcon])
      simp [stageFires, stageTarget, numFalsy, hls, hp]
  · intro price sellAt t i
    by_cases hf : stageFires price t i = true
    · simp only [stageStep, hf, if_true]
      cases sellAt i with
      | none => simp
      | some tx =>
        by_cases hlen : t.profitPercents.length ≤ i + 1 <;> simp [hlen]
    · simp only [stageStep]
      rw [if_neg hf]
      simpa using hf
  · intro price sellAt t i tx hf hsell
    simp only [stageStep, hf, if_true, hsell]
    by_cases hlen : t.profitPercents.length ≤ i + 1
    · rw [if_pos hlen]
      refine ⟨rfl, rfl, rfl, fun _ => ⟨rfl, rfl⟩, fun hcon => absurd hcon (by omega)⟩
    · rw [if_neg hlen]
      exact ⟨rfl, rfl, rfl, fun hcon => absurd hcon hlen, fun _ => ⟨rfl, rfl⟩⟩
  · norm_num [evalToken, tokenInvalid, numFalsy, sampleToken, stageLoop, stageOrZero,
      stageIdx, runStages, stageStep, stageFires, stageTarget, repeatCheck, List.getD]
    decide
  · norm_num [evalToken, tokenInvalid, numFalsy, sampleToken, sampleAfterStage0, stageLoop,
      stageOrZero, stageIdx, runStages, stageStep, stageFires, stageTarget, repeatCheck,
      List.getD]
    decide
  · norm_num [evalToken, tokenInvalid, numFalsy, sampleToken, sampleAfterStage0, stageLoop,
      stageOrZero, stageIdx, runStages, stageStep, stageFires, stageTarget, repeatCheck,
      List.getD]
    decide
  · norm_num [evalToken, tokenInvalid, numFalsy, sampleToken, sampleAfterStage0, sampleSold,
      stageLoop, stageOrZero, stageIdx, runStages, stageStep, stageFires, stageTarget,
      repeatCheck, List.getD]
    decide

/-- Claim C1 witness: at price 110 the sample token's stage 0 guard holds. -/
theorem stage_firing_condition_and_trace_check :
    stageFires 110 sampleToken 0 = true :=
  (stage_firing_condition_and_trace.1 110 sampleToken 0 (by decide)).mpr
    ⟨by norm_num [sampleToken, List.getD], Or.inl rfl⟩

/-- Claim C2 counterexample: the sample token fully sold (finished, stages
exhausted, soldPercents summing to 100) with repeatOnEntry enabled, on a
subsequent pass at price 90, below the original entry price 100.  The claim
predicts an in-place reset to pending with cleared prices, but the pass
marks the token sold and leaves it otherwise unchanged, because the
terminal finished check skips the token before the repeat-on-entry check is
reached. -/
theorem finished_token_not_reset_on_later_pass :
    evalToken true (fun _ => some 90) (fun _ _ => some "b") (fun _ _ => some "s")
      sampleSold = (sampleSold, [])
    ∧ sampleSold.finished = true
    ∧ 100 ≤ sampleSold.soldPercents.sum
    ∧ (90 : ℚ) ≤ sampleSold.lastEntryPrice.getD 0
    ∧ (evalToken true (fun _ => some 90) (fun _ _ => some "b") (fun _ _ => some "s")
        sampleSold).1.status ≠ some Status.pending
    ∧ (evalToken true (fun _ => some 90) (fun _ _ => some "b") (fun _ _ => some "s")
        sampleSold).1.lastEntryPrice ≠ none := by
  have heval : evalToken true (fun _ => some 90) (fun _ _ => some "b") (fun _ _ => some "s")
      sampleSold = (sampleSold, []) := by
    norm_num [evalToken, tokenInvalid, numFalsy, sampleToken, sampleAfterStage0, sampleSold]
    decide
  refine ⟨heval, rfl, ?_, ?_, ?_, ?_⟩
  · norm_num [sampleSold, sampleAfterStage0, sampleToken]
  · norm_num [sampleSold, sampleAfterStage0, sampleToken]
  · rw [heval]
    decide
  · rw [heval]
    decide

/-- Claim C2 amended: the repeat-on-entry reset happens only inside the same
pass, after stage evaluation of a token that was not finished when the pass
reached it: a token with finished already true is marked sold and skipped,
so a fully sold token is never reset on a subsequent pass; for a token that
does run stage evaluation, the pass ends with the repeat check applied to
the post-stage state, and that check resets the token in place (finished
false, entryPrice and lastSellPrice cleared, status pending, currentStage 0,
lastTxId cleared) whenever soldPercents sum to at least 100, repeatOnEntry
is enabled and currentPrice is at most the entry price; the sample token
mid-cycle at price 95 demonstrates the reset. -/
theorem repeat_reset_same_pass_only :
    (∀ (t : HoneyToken) (repeatOnEntry : Bool) (gp : String → Option ℚ)
        (ab : String → ℚ → Option String) (sa : String → ℕ → Option String),
      tokenInvalid t = false → t.finished = true →
      evalToken repeatOnEntry gp ab sa t = ({ t with status := some Status.sold }, []))
    ∧ (∀ (repeatOnEntry : Bool) (price : ℚ) (t : HoneyToken),
      100 ≤ t.soldPercents.sum → repeatOnEntry = true →
      price ≤ t.lastEntryPrice.getD 0 →
      repeatCheck repeatOnEntry price t =
        { t with finished := false, lastEntryPrice := none, lastSellPrice := none,
                 status := some Status.pending, currentStage := some 0, lastTxId := none })
    ∧ (∀ (repeatOnEntry : Bool) (gp : String → Option ℚ)
        (ab : String → ℚ → Option String) (sa : String → ℕ → Option String)
        (t : HoneyToken) (price : ℚ),
      tokenInvalid t = false → t.finished = false → numFalsy t.lastEntryPrice = false →
      gp t.address = some price →
      evalToken repeatOnEntry gp ab sa t =
        (repeatCheck repeatOnEntry price (stageLoop price (sa t.address) t).1,
          (stageLoop price (sa t.address) t).2))
    ∧ evalToken true (fun _ => some 95) (fun _ _ => some "b") (fun _ _ => some "s")
        sampleAfterStage0 = (sampleReset, []) := by
  refine ⟨?_, ?_, ?_, ?_⟩
  · intro t repeatOnEntry gp ab sa hinv hfin
    simp [evalToken, hinv, hfin]
  · intro repeatOnEntry price t hsum hrep hprice
    have hcond : 100 ≤ t.soldPercents.sum ∧ repeatOnEntry = true ∧
        price ≤ t.lastEntryPrice.getD 0 := ⟨hsum, hrep, hprice⟩
    simp only [repeatCheck, if_pos hcond]
  · intro repeatOnEntry gp ab sa t price hinv hfin hentry hgp
    simp [evalToken, hinv, hfin, hentry, hgp]
  · norm_num [evalToken, tokenInvalid, numFalsy, sampleToken, sampleAfterStage0, sampleReset,
      stageLoop, stageOrZero, stageIdx, runStages, stageStep, stageFires, stageTarget,
      repeatCheck, List.getD]
    decide

/-- Claim C2 amended witness: a finished token is marked sold and skipped. -/
theorem repeat_reset_same_pass_only_check :
    evalToken true (fun _ => some 90) (fun _ _ => some "b2") (fun _ _ => some "s2")
      sampleSold = ({ sampleSold with status := some Status.sold }, []) := by
  have hinv : tokenInvalid sampleSold = false := by
    norm_num [tokenInvalid, sampleSold, sampleAfterStage0, sampleToken]
    decide
  exact repeat_reset_same_pass_only.1 sampleSold true (fun _ => some 90)
    (fun _ _ => some "b2") (fun _ _ => some "s2") hinv rfl

/-- Claim C3: if within one pass the stage loop starts at stage i and the
sell for stage i fires but fails, the token's status is set to error and the
loop goes on to evaluate stages i + 1 through the last stage of the same
pass, starting from the error-marked token: the whole loop equals the failed
call followed by the loop over the remaining stage indices. -/
theorem failed_sell_marks_error_and_continues (price : ℚ) (sellAt : ℕ → Option String)
    (t : HoneyToken) (i : ℕ) (hstart : stageOrZero t.currentStage = i)
    (hi : i < t.profitPercents.length) (hfire : stageFires price t i = true)
    (hfail : sellAt i = none) :
    stageLoop price sellAt t =
      ((runStages price sellAt (stageIdx (i + 1) (t.profitPercents.length - (i + 1)))
          { t with status := some Status.error }).1,
        ⟨i, t.buyAmount * (t.soldPercents.getD i 0 / 100), none⟩ ::
          (runStages price sellAt (stageIdx (i + 1) (t.profitPercents.length - (i + 1)))
            { t with status := some Status.error }).2) := by
  have hn : t.profitPercents.length - i = (t.profitPercents.length - (i + 1)) + 1 := by
    omega
  rw [stageLoop, hstart, hn]
  simp only [stageIdx, runStages, stageStep, hfire, hfail, if_true]
  simp

/-- Claim C3 witness: at price 126 the sample token fires stage 0, the sell
fails, status goes to error, and stage 1 is still evaluated in the same
pass: it fires, succeeds, and finishes the token. -/
theorem failed_sell_marks_error_and_continues_check :
    stageLoop 126 (fun i => if i = 0 then none else some "s") sampleToken =
      ({ sampleToken with lastSellPrice := some 126, currentStage := some 2,
                          lastTxId := some "s", finished := true,
                          status := some Status.sold },
        [⟨0, 1/2, none⟩, ⟨1, 1/2, some "s"⟩]) := by
  have hfire : stageFires 126 sampleToken 0 = true := by
    norm_num [stageFires, stageTarget, numFalsy, sampleToken, List.getD]
  have h := failed_sell_marks_error_and_continues 126
    (fun i => if i = 0 then none else some "s") sampleToken 0 rfl
    (by norm_num [sampleToken]) hfire rfl
  rw [h]
  norm_num [runStages, stageIdx, stageStep, stageFires, stageTarget, numFalsy, sampleToken,
    List.getD]

end Bot
